import Mathlib

/-!
Shallow embedding of the core of `src/index.js` from the
MineflayerLocalAI-Chat-Walk repository: the text-extraction pipeline
(parsePlanFromReply, parseJsonActionsFromReply, parseCommandLineFromReply,
extractActionsLoose), the plan executor (executePlan), the chat-triggered
action loop of gptPlanAndExecute, the planner tick gate (plannerTick), the
command gate (tryExecuteCommand, ALLOW_COMMANDS), and the reply sanitizer
(sanitizeLLMReplyForChat).

Modeling conventions:
- JS strings are lists of characters (JStr).  String positions are list
  indices; JS `indexOf`/`slice`/`trim` are re-implemented below with their
  JS clamping semantics.
- JS numbers are JsNum: finite doubles are modeled as exact rationals, plus
  NaN / Infinity / -Infinity with IEEE-style propagation in the arithmetic
  used by the code (subtraction, multiplication, addition, comparison).
  Rounding of finite values to binary64 is not modeled; overflow of parsed
  literals to Infinity is modeled with the 2^1024 threshold.
- JS values (the results of JSON.parse and the action/step records) are the
  inductive JsVal.
- Side effects on the bot are modeled by an explicit World state carrying
  the ExecutionSession (busy flag and task label), the agent position, and
  the ordered list of chat messages sent with bot.chat.  Collaborator calls
  (executeMicroAction / executeAction dispatch) are parameters of type
  ActionRec → World → World × Except Unit Bool: the returned World holds
  the side effects performed before returning or throwing, and the Except
  value is `ok r` for a normal return r or `error ()` for a thrown
  exception.  try/catch in the source is modeled by matching on the Except.
- Every definition is total; JS operations that can throw (JSON.parse)
  return Except and are matched exactly where the source has try/catch.
-/

set_option maxHeartbeats 1000000
set_option maxRecDepth 10000

namespace MF

abbrev JStr := List Char

/-! ## JS string helpers -/

/-- JS whitespace (the characters matched by `\s` and trimmed by
`String.prototype.trim`); only the common ASCII/latin-1 ones are modeled. -/
def isWsJs (c : Char) : Bool :=
  c = ' ' || c = '\t' || c = '\n' || c = '\r' ||
  c = Char.ofNat 11 || c = Char.ofNat 12 || c = Char.ofNat 160

/-- `s.trim()` -/
def jsTrim (s : JStr) : JStr :=
  ((s.dropWhile isWsJs).reverse.dropWhile isWsJs).reverse

/-- `needle` is an initial run of `hay`. -/
def hasLead : JStr → JStr → Bool
  | _, [] => true
  | [], _ :: _ => false
  | a :: as, b :: bs => a = b && hasLead as bs

/-- search for `needle` in `hay` starting at list index `i`;
returns the first match index. -/
def idxGo (needle : JStr) : JStr → Nat → Option Nat
  | [], i => if needle = [] then some i else none
  | s@(_ :: rest), i => if hasLead s needle then some i else idxGo needle rest (i + 1)

/-- `hay.indexOf(needle, start)` with JS clamping of `start`. -/
def jsIndexOfFrom (hay needle : JStr) (start : Int) : Int :=
  let st : Nat := if start < 0 then 0 else min start.toNat hay.length
  match idxGo needle (hay.drop st) st with
  | some i => Int.ofNat i
  | none => -1

/-- `hay.indexOf(needle)` -/
def jsIndexOf (hay needle : JStr) : Int :=
  jsIndexOfFrom hay needle 0

/-- backward-search worker for `lastIndexOf`: the last index ≤ bound where
the character occurs. -/
def lastIdxGo (c : Char) (bound : Nat) : JStr → Nat → Option Nat → Option Nat
  | [], _, acc => acc
  | d :: rest, i, acc =>
    if i ≤ bound ∧ d = c then lastIdxGo c bound rest (i + 1) (some i)
    else lastIdxGo c bound rest (i + 1) acc

/-- `hay.lastIndexOf(c, fromIdx)` for a single-character needle: the largest
match index that is ≤ fromIdx, or -1.  A negative fromIdx means only index 0
may match (JS clamps to 0). -/
def jsLastIndexOfChar (hay : JStr) (c : Char) (fromIdx : Int) : Int :=
  let bound : Nat := if fromIdx < 0 then 0 else fromIdx.toNat
  match lastIdxGo c bound hay 0 none with
  | some i => Int.ofNat i
  | none => -1

/-- `s.slice(a, b)` with JS index normalization (negative indices count from
the end, both are clamped to [0, length]). -/
def jsSlice (s : JStr) (a b : Int) : JStr :=
  let len : Int := s.length
  let norm (i : Int) : Nat := (if i < 0 then max (len + i) 0 else min i len).toNat
  let a' := norm a
  let b' := norm b
  (s.drop a').take (b' - a')

/-- `s.slice(a)` (to the end of the string). -/
def jsSliceFrom (s : JStr) (a : Int) : JStr :=
  jsSlice s a s.length

/-- worker for the JS-style splits below (keeps empty pieces). -/
def splitGo (isSep : Char → Bool) : JStr → JStr → List JStr
  | [], acc => [acc.reverse]
  | c :: rest, acc =>
    if isSep c then acc.reverse :: splitGo isSep rest []
    else splitGo isSep rest (c :: acc)

/-- split a list on a separator character, JS `split` style. -/
def splitOnC (sep : Char) (s : JStr) : List JStr :=
  splitGo (fun c => c = sep) s []

/-- split on any of several separator characters (for `split(/[;,\n]/)`). -/
def splitOnAny (seps : List Char) (s : JStr) : List JStr :=
  splitGo (fun c => seps.contains c) s []

/-- ASCII lower-casing, as used by `toLowerCase` on the ASCII action names
involved here. -/
def toLowerChar (c : Char) : Char :=
  if 'A' ≤ c ∧ c ≤ 'Z' then Char.ofNat (c.toNat + 32) else c

def toLowerL (s : JStr) : JStr := s.map toLowerChar

/-- case-insensitive literal match at the head of `s`; returns the rest. -/
def ciMatchAt : JStr → JStr → Option JStr
  | s, [] => some s
  | [], _ :: _ => none
  | c :: rest, l :: ls =>
    if toLowerChar c = toLowerChar l then ciMatchAt rest ls else none

def isWordChar (c : Char) : Bool :=
  ('a' ≤ c ∧ c ≤ 'z') || ('A' ≤ c ∧ c ≤ 'Z') || ('0' ≤ c ∧ c ≤ '9') || c = '_'

/-! ## rational arithmetic helpers

Core `Rat.add`/`Rat.sub`/`Rat.mul` are irreducible, which blocks
definitional evaluation; the embedding therefore uses the following
equivalent formulations through `mkRat` (the bridge lemmas `qAdd_eq`,
`qSub_eq`, `qMul_eq`, `qNeg_eq`, `qLtB_iff`, `qEqZero_iff` in the theorem
section show they agree with the standard operations). -/

def qAdd (a b : ℚ) : ℚ := mkRat (a.num * b.den + b.num * a.den) (a.den * b.den)

def qSub (a b : ℚ) : ℚ := mkRat (a.num * b.den - b.num * a.den) (a.den * b.den)

def qMul (a b : ℚ) : ℚ := mkRat (a.num * b.num) (a.den * b.den)

def qNeg (a : ℚ) : ℚ := mkRat (-a.num) a.den

/-- `a < b` as a Bool. -/
def qLtB (a b : ℚ) : Bool := Rat.blt a b

/-- `a = 0` as a Bool (a normalized rational is zero iff its numerator
is). -/
def qEqZero (a : ℚ) : Bool := a.num == 0

/-! ## JS numbers -/

/-- JS number values: finite doubles as exact rationals plus the three
special values. -/
inductive JsNum where
  | fin (q : ℚ)
  | nan
  | inf
  | ninf
deriving DecidableEq

/-- IEEE-style subtraction on the values that occur here. -/
def jsSub : JsNum → JsNum → JsNum
  | .nan, _ => .nan
  | _, .nan => .nan
  | .inf, .inf => .nan
  | .inf, _ => .inf
  | .ninf, .ninf => .nan
  | .ninf, _ => .ninf
  | .fin _, .inf => .ninf
  | .fin _, .ninf => .inf
  | .fin a, .fin b => .fin (qSub a b)

/-- IEEE-style multiplication (inf * 0 = NaN). -/
def jsMul : JsNum → JsNum → JsNum
  | .nan, _ => .nan
  | _, .nan => .nan
  | .inf, .inf => .inf
  | .inf, .ninf => .ninf
  | .ninf, .inf => .ninf
  | .ninf, .ninf => .inf
  | .inf, .fin b => if qEqZero b then .nan else if qLtB 0 b then .inf else .ninf
  | .fin a, .inf => if qEqZero a then .nan else if qLtB 0 a then .inf else .ninf
  | .ninf, .fin b => if qEqZero b then .nan else if qLtB 0 b then .ninf else .inf
  | .fin a, .ninf => if qEqZero a then .nan else if qLtB 0 a then .ninf else .inf
  | .fin a, .fin b => .fin (qMul a b)

/-- IEEE-style addition on the values that occur here (sums of squares). -/
def jsAdd : JsNum → JsNum → JsNum
  | .nan, _ => .nan
  | _, .nan => .nan
  | .inf, .ninf => .nan
  | .ninf, .inf => .nan
  | .inf, _ => .inf
  | _, .inf => .inf
  | .ninf, _ => .ninf
  | _, .ninf => .ninf
  | .fin a, .fin b => .fin (qAdd a b)

/-- `bot.entity.position.distanceTo(new Vec3(x,y,z)) > 10` for positions
`a` (agent) and `b` (target).  Vec3.distanceTo is sqrt(dx²+dy²+dz²); since
the squared distance is a sum of squares (nonnegative when finite),
sqrt(d2) > 10 holds exactly when d2 > 100; a NaN distance compares false
and an infinite distance compares true, as in JS. -/
def distToGt10 (a b : JsNum × JsNum × JsNum) : Bool :=
  let dx := jsSub b.1 a.1
  let dy := jsSub b.2.1 a.2.1
  let dz := jsSub b.2.2 a.2.2
  match jsAdd (jsAdd (jsMul dx dx) (jsMul dy dy)) (jsMul dz dz) with
  | .nan => false
  | .inf => true
  | .ninf => false
  | .fin q => qLtB 100 q

/-! ## JS values -/

/-- JS/JSON values.  Object fields are kept in insertion order; JSON.parse
duplicate keys are resolved by `getField` returning the last binding. -/
inductive JsVal where
  | num (n : JsNum)
  | str (s : JStr)
  | jbool (b : Bool)
  | jnull
  | arr (elems : List JsVal)
  | obj (fields : List (JStr × JsVal))

/-- association lookup, last binding wins (JSON.parse duplicate keys). -/
def assocLast : List (JStr × JsVal) → JStr → Option JsVal
  | [], _ => none
  | (k', v) :: rest, k =>
    match assocLast rest k with
    | some r => some r
    | none => if k' = k then some v else none

/-- property access `v[k]`: `none` models `undefined` (also for property
access on non-object primitives, which yields undefined for the properties
used here). -/
def getField : JsVal → JStr → Option JsVal
  | .obj fs, k => assocLast fs k
  | _, _ => none

/-- property access defaulting to undefined modeled as jnull (used only in
positions where the source has already checked truthiness, where null and
undefined behave alike). -/
def getFD (v : JsVal) (k : JStr) : JsVal :=
  (getField v k).getD .jnull

/-- JS truthiness of a value. -/
def truthyV : JsVal → Bool
  | .num (.fin q) => !(qEqZero q)
  | .num .nan => false
  | .num .inf => true
  | .num .ninf => true
  | .str s => !(s.isEmpty)
  | .jbool b => b
  | .jnull => false
  | .arr _ => true
  | .obj _ => true

/-- JS truthiness of a possibly-undefined value. -/
def truthyO : Option JsVal → Bool
  | none => false
  | some v => truthyV v

/-- `typeof v[k] === 'number'`, and the numeric value when so. -/
def getNumF (v : JsVal) (k : JStr) : Option JsNum :=
  match getField v k with
  | some (.num n) => some n
  | _ => none

def natToStr (n : Nat) : JStr := (Nat.repr n).toList

def intToStr (i : Int) : JStr := (Int.repr i).toList

/-- decimal digits of a rational in [0,1), with a fuel bound.  JS prints the
shortest round-trip representation; for the integral values appearing in
the verified messages the two agree, non-integral formatting is
approximated. -/
def fracDigits : Nat → ℚ → JStr
  | 0, _ => []
  | f + 1, q =>
    if qEqZero q then []
    else
      let q10 := qMul q (mkRat 10 1)
      let d : Int := q10.num / (q10.den : Int)
      Char.ofNat (48 + d.toNat) :: fracDigits f (qSub q10 (mkRat d 1))

/-- JS number-to-string for template literals. -/
def jsNumToStr : JsNum → JStr
  | .nan => ("NaN").toList
  | .inf => ("Infinity").toList
  | .ninf => ("-Infinity").toList
  | .fin q =>
    if q.den = 1 then intToStr q.num
    else
      let sgn : JStr := if qLtB q 0 then ['-'] else []
      let aq := if qLtB q 0 then qNeg q else q
      let ip : Int := aq.num / (aq.den : Int)
      sgn ++ intToStr ip ++ ['.'] ++ fracDigits 40 (qSub aq (mkRat ip 1))

mutual
/-- JS `String(v)` conversion for the values reaching it here. -/
def jsToStr : JsVal → JStr
  | .num n => jsNumToStr n
  | .str s => s
  | .jbool b => if b then ("true").toList else ("false").toList
  | .jnull => ("null").toList
  | .obj _ => ("[object Object]").toList
  | .arr xs => jsToStrList xs

def jsToStrList : List JsVal → JStr
  | [] => []
  | [x] => jsToStr x
  | x :: y :: xs => jsToStr x ++ ',' :: jsToStrList (y :: xs)
end

mutual
/-- `JSON.stringify` (no spacing), used only to build the dedupe key in
extractActionsLoose. -/
def jsonStringify : JsVal → JStr
  | .num n => jsNumToStr n
  | .str s => '"' :: s ++ ['"']
  | .jbool b => if b then ("true").toList else ("false").toList
  | .jnull => ("null").toList
  | .arr xs => '[' :: jsonStringifyList xs ++ [']']
  | .obj fs => Char.ofNat 123 :: jsonStringifyFields fs ++ [Char.ofNat 125]

def jsonStringifyList : List JsVal → JStr
  | [] => []
  | [x] => jsonStringify x
  | x :: y :: xs => jsonStringify x ++ ',' :: jsonStringifyList (y :: xs)

def jsonStringifyFields : List (JStr × JsVal) → JStr
  | [] => []
  | [(k, v)] => '"' :: k ++ ['"', ':'] ++ jsonStringify v
  | (k, v) :: g :: fs =>
    '"' :: k ++ ['"', ':'] ++ jsonStringify v ++ ',' :: jsonStringifyFields (g :: fs)
end

/-! ## World state -/

/-- the ExecutionSession flags (`busy`, `currentTask`). -/
structure Session where
  busy : Bool
  currentTask : Option JStr
deriving DecidableEq

/-- observable bot state threaded through the embedding: session flags, the
agent position (bot.entity.position), and the ordered chat transcript of
bot.chat calls. -/
structure World where
  sess : Session
  pos : JsNum × JsNum × JsNum
  chat : List JStr

/-- `setBusy(state, name)` from src/index.js line 71. -/
def setBusy (state : Bool) (name : Option JStr) (w : World) : World :=
  { w with sess := ⟨state, if state then name else none⟩ }

/-- `bot.chat(m)` (the try/catch wrappers around it in the source make its
failures invisible; it is modeled as total). -/
def botChat (m : JStr) (w : World) : World :=
  { w with chat := w.chat ++ [m] }

/-- a dispatched micro action record `{ name, params: p }` as built at
src/index.js line 731. -/
structure ActionRec where
  name : JStr
  params : JsVal

/-- type of the external dispatch collaborator (executeMicroAction /
executeAction): returns the world holding its side effects plus either a
normal boolean result (`Except.ok`) or a thrown exception
(`Except.error`). -/
abbrev Dispatch := ActionRec → World → World × Except Unit Bool

/-! ## executePlan (src/index.js lines 706-735) -/

def missingMsg : JStr := ("Skipping step: missing coordinates").toList

def oorMsg (x y z : JsNum) : JStr :=
  ("Skipping out-of-range step at ").toList ++
    jsNumToStr x ++ ',' :: jsNumToStr y ++ ',' :: jsNumToStr z

def unsupMsg (nm : JStr) : JStr :=
  ("Skipping unsupported step type: ").toList ++ nm

def ratMsg (r : JsVal) : JStr := ("Plan: ").toList ++ jsToStr r

/-- the whitelist `['inspect','goto','dig','mine']` of line 724. -/
def supportedSteps : List JStr :=
  [("inspect").toList, ("goto").toList, ("dig").toList, ("mine").toList]

/-- `String(s.name).toLowerCase()` (line 711). -/
def stepNameOf (s : JsVal) : JStr := toLowerL (jsToStr (getFD s (("name").toList)))

/-- `s.params || {}` (line 712). -/
def stepParamsOf (s : JsVal) : JsVal :=
  if truthyO (getField s (("params").toList)) then getFD s (("params").toList)
  else JsVal.obj []

/-- the coordinate validation `typeof p.x !== 'number' || typeof p.y !==
'number' || typeof p.z !== 'number'` (line 715): some triple exactly when
all three are number-typed. -/
def getNumXYZ (p : JsVal) : Option (JsNum × JsNum × JsNum) :=
  match getNumF p (("x").toList), getNumF p (("y").toList), getNumF p (("z").toList) with
  | some x, some y, some z => some (x, y, z)
  | _, _, _ => none

/-- the `for (const s of steps)` body of executePlan.  Each step:
skip falsy steps and steps with a falsy name; lower-case the name; take
`s.params || {}`; skip (with a chat notice) when any of params.x/y/z is not
number-typed; skip when the distance from the current position exceeds 10;
skip unsupported names; announce a truthy rationale; dispatch through the
collaborator and propagate a thrown exception; continue with the rest.
`sleep` has no observable effect in this model. -/
def executePlanLoop (exec : Dispatch) : List JsVal → World → World × Except Unit Bool
  | [], w => (w, Except.ok true)
  | s :: rest, w =>
    if !(truthyV s && truthyO (getField s (("name").toList))) then
      executePlanLoop exec rest w
    else
      let name := stepNameOf s
      let p := stepParamsOf s
      match getNumXYZ p with
      | some (x, y, z) =>
        if distToGt10 w.pos (x, y, z) then
          executePlanLoop exec rest (botChat (oorMsg x y z) w)
        else if !(supportedSteps.contains name) then
          executePlanLoop exec rest (botChat (unsupMsg name) w)
        else
          let w1 := if truthyO (getField s (("rationale").toList))
                    then botChat (ratMsg (getFD s (("rationale").toList))) w else w
          match exec ⟨name, p⟩ w1 with
          | (w2, Except.error e) => (w2, Except.error e)
          | (w2, Except.ok _) => executePlanLoop exec rest w2
      | none =>
        executePlanLoop exec rest (botChat missingMsg w)

/-- `executePlan(steps)`: returns false without touching anything when the
argument is not an array, otherwise runs the loop and returns true (a
thrown dispatch exception propagates out of the whole call). -/
def executePlan (exec : Dispatch) (steps : JsVal) (w : World) : World × Except Unit Bool :=
  match steps with
  | .arr xs => executePlanLoop exec xs w
  | _ => (w, Except.ok false)

/-! ## the chat-triggered action loop of gptPlanAndExecute
(src/index.js lines 878-883) -/

/-- `for (const a of actions) { try { await executeAction(username, a) }
catch (e) { console.error(...) } await sleep(150) } return true`:
each dispatch (executeAction, taking the raw action value) is individually
caught, so the loop always reaches the end and the function returns true. -/
def gptExecuteLoop (execA : JsVal → World → World × Except Unit Bool) :
    List JsVal → World → World × Bool
  | [], w => (w, true)
  | a :: rest, w => gptExecuteLoop execA rest ((execA a w).1)

/-! ## plannerTick (src/index.js lines 386-401) -/

/-- `plannerTick`: returns immediately when not running or busy; otherwise
asks the plan oracle, and either executes the plan steps (exceptions from
executePlan are caught and logged) or falls back to a wander.  The LLM
request and wander are collaborator parameters. -/
def plannerTick (running : Bool) (requestPlan : World → World × Option JsVal)
    (exec : Dispatch) (wander : World → World) (w : World) : World :=
  if !running || w.sess.busy then w
  else
    let (w1, plan?) := requestPlan w
    match plan? with
    | some pl =>
      if truthyV pl &&
         (match getField pl (("steps").toList) with
          | some (.arr xs) => !xs.isEmpty
          | _ => false) then
        (executePlan exec (getFD pl (("steps").toList)) w1).1
      else wander w1
    | none => wander w1

/-! ## tryExecuteCommand and the config flags (src/index.js lines 65-66,
973-988) -/

/-- `process.env.ALLOW_COMMANDS === '1' || true` (line 66); the environment
variable is the argument. -/
def ALLOW_COMMANDS (env : Option JStr) : Bool :=
  (env = some (("1").toList)) || true

/-- `process.env.ALLOW_DESTRUCTIVE === '1' || true` (line 65). -/
def ALLOW_DESTRUCTIVE (env : Option JStr) : Bool :=
  (env = some (("1").toList)) || true

def refusalMsg : JStr := ("Cannot run command: not allowed or not op").toList

/-- `tryExecuteCommand(cmd)` with the module flags as parameters: empty
command → false; gate `!ALLOW_COMMANDS && !botIsOp` → refusal notice and
false; otherwise prefix '/' when absent, send the command over chat, and
return true. -/
def tryExecuteCommand (allowCommands botIsOp : Bool) (cmd : JStr) (w : World) :
    World × Bool :=
  if cmd.isEmpty then (w, false)
  else if !allowCommands && !botIsOp then (botChat refusalMsg w, false)
  else
    let cmd2 := if cmd.head? = some '/' then cmd else '/' :: cmd
    (botChat cmd2 w, true)

/-! ## sanitizeLLMReplyForChat (src/index.js lines 956-970) -/

/-- worker for the global fenced-block replace (fuel bounds the number of
matches, which consume at least six characters each). -/
def removeFencesGo (marker : JStr) : Nat → JStr → JStr
  | 0, t => t
  | fuel + 1, t =>
    let a := jsIndexOf t marker
    if a = -1 then t
    else
      let b := jsIndexOfFrom t marker (a + 3)
      if b = -1 then t
      else jsSlice t 0 a ++ removeFencesGo marker fuel (jsSliceFrom t (b + 3))

/-- global replace of the lazy fenced-block pattern: each match runs from a
fence marker to the next one; an unpaired trailing marker is left alone. -/
def removeFences (s : JStr) : JStr :=
  removeFencesGo [Char.ofNat 96, Char.ofNat 96, Char.ofNat 96] s.length s

/-- global replace of the greedy brace-span pattern: removes from the first
opening brace that has a closing brace somewhere after it, through the last
closing brace of the string (at most one match can exist). -/
def removeBraceSpan (s : JStr) : JStr :=
  let i := jsIndexOf s [Char.ofNat 123]
  let j := jsLastIndexOfChar s (Char.ofNat 125) s.length
  if i ≠ -1 ∧ j ≠ -1 ∧ i < j then jsSlice s 0 i ++ jsSliceFrom s (j + 1)
  else s

/-- `replace(/\s+/g, ' ')`. -/
def collapseWsGo : Bool → JStr → JStr
  | _, [] => []
  | prevWs, c :: rest =>
    if isWsJs c then
      if prevWs then collapseWsGo true rest else ' ' :: collapseWsGo true rest
    else c :: collapseWsGo false rest

def collapseWs (s : JStr) : JStr := collapseWsGo false s

/-- the cleaning stage of sanitizeLLMReplyForChat before the preamble
filter and truncation. -/
def sanitizeCleaned (reply : JStr) : JStr :=
  jsTrim (collapseWs (removeBraceSpan (removeFences reply)))

def ellipsisL : JStr := ['.', '.', '.']

def preambleL : JStr := ("\"Alright, let").toList

/-- `sanitizeLLMReplyForChat(reply)`. -/
def sanitizeLLMReplyForChat (reply : JStr) : JStr :=
  if reply.isEmpty then []
  else
    let s := sanitizeCleaned reply
    if hasLead s preambleL then []
    else if 240 < s.length then s.take 237 ++ ellipsisL
    else s

/-! ## JSON.parse

A JSON parser over JStr; intra-string and intra-token whitespace / escape
handling follows the JSON grammar accepted by `JSON.parse`.  The parser is
fuel-bounded (fuel decreases on every recursive call and at least one
character is consumed between consecutive decrements, so `length + 2`
fuel is sufficient for every parsable input). -/

def skipJsonWs (s : JStr) : JStr :=
  s.dropWhile (fun c => c = ' ' || c = '\t' || c = '\n' || c = '\r')

def hexVal (c : Char) : Option Nat :=
  if '0' ≤ c ∧ c ≤ '9' then some (c.toNat - 48)
  else if 'a' ≤ c ∧ c ≤ 'f' then some (c.toNat - 87)
  else if 'A' ≤ c ∧ c ≤ 'F' then some (c.toNat - 55)
  else none

def escChar (e : Char) : Option Char :=
  if e = '"' then some '"'
  else if e = '\\' then some '\\'
  else if e = '/' then some '/'
  else if e = 'b' then some (Char.ofNat 8)
  else if e = 'f' then some (Char.ofNat 12)
  else if e = 'n' then some '\n'
  else if e = 'r' then some '\r'
  else if e = 't' then some '\t'
  else none

/-- body of a JSON string after the opening quote: returns the decoded
content and the remainder after the closing quote.  Raw control characters
are rejected, as by JSON.parse; surrogate pairing of `\u` escapes is not
modeled (such escapes do not occur in any verified input). -/
def jsonStringBody : Nat → JStr → Option (JStr × JStr)
  | 0, _ => none
  | _, [] => none
  | fuel + 1, c :: rest =>
    if c = '"' then some ([], rest)
    else if c = '\\' then
      match rest with
      | [] => none
      | e :: r2 =>
        if e = 'u' then
          match r2 with
          | h1 :: h2 :: h3 :: h4 :: r3 =>
            match hexVal h1, hexVal h2, hexVal h3, hexVal h4 with
            | some a, some b, some c2, some d =>
              match jsonStringBody fuel r3 with
              | some (tail, rr) =>
                some (Char.ofNat (((a * 16 + b) * 16 + c2) * 16 + d) :: tail, rr)
              | none => none
            | _, _, _, _ => none
          | _ => none
        else
          match escChar e with
          | some ch =>
            match jsonStringBody fuel r2 with
            | some (tail, rr) => some (ch :: tail, rr)
            | none => none
          | none => none
    else if c.toNat < 32 then none
    else
      match jsonStringBody fuel rest with
      | some (tail, rr) => some (c :: tail, rr)
      | none => none

def natOfDigits (ds : JStr) : Nat :=
  ds.foldl (fun acc c => acc * 10 + (c.toNat - 48)) 0

/-- 2^1024, the overflow threshold of binary64, as an explicit numeral. -/
def dblLimit : Int :=
  179769313486231590772930519078902473361797697894230657273430081157732675805500963132708477322407536021120113879871393357658789768814416622492847430639474124377767893424865485276302219601246094119453082952085005768838150682342462881473913110540827237163350510684586298239947245938479716304835356329624224137216

/-- finite results map to the exact rational, magnitudes at or beyond
2^1024 overflow to the JS infinities (so a literal like 1e999 parses to
Infinity, as in JS).  The comparison is done on numerator and denominator
to stay in kernel-friendly integer arithmetic. -/
def mkDouble (q : ℚ) : JsNum :=
  if dblLimit * (q.den : Int) ≤ q.num then .inf
  else if q.num ≤ -dblLimit * (q.den : Int) then .ninf
  else .fin q

/-- the rational `digits(ds).digits(fs)`, i.e. the decimal with integer
digits `ds` and fraction digits `fs`. -/
def decValOf (ds fs : JStr) : ℚ :=
  mkRat (natOfDigits (ds ++ fs) : Nat) (10 ^ fs.length)

/-- scaling by a signed power of ten (decimal exponent part). -/
def qScale10 (q : ℚ) (e : Int) : ℚ :=
  if 0 ≤ e then qMul q (mkRat ((10 : Nat) ^ e.toNat : Nat) 1)
  else qMul q (mkRat 1 ((10 : Nat) ^ (-e).toNat))

/-- a JSON number literal `-?(0|[1-9][0-9]*)(\.[0-9]+)?([eE][+-]?[0-9]+)?`
at the head of `s`. -/
def jsonNumber (s : JStr) : Option (JsNum × JStr) :=
  let (neg, s1) := match s with
    | '-' :: r => (true, r)
    | _ => (false, s)
  let ds := s1.takeWhile Char.isDigit
  if ds.isEmpty then none
  else if 1 < ds.length ∧ ds.head? = some '0' then none
  else
    let r1 := s1.drop ds.length
    let step2 : Option (ℚ × JStr) :=
      match r1 with
      | '.' :: r =>
        let fs := r.takeWhile Char.isDigit
        if fs.isEmpty then none
        else some (decValOf ds fs, r.drop fs.length)
      | _ => some (decValOf ds [], r1)
    match step2 with
    | none => none
    | some (base, r2) =>
      let step3 : Option (ℚ × JStr) :=
        match r2 with
        | e :: r =>
          if e = 'e' ∨ e = 'E' then
            let (esign, r') := match r with
              | '+' :: rr => ((1 : Int), rr)
              | '-' :: rr => ((-1 : Int), rr)
              | _ => ((1 : Int), r)
            let es := r'.takeWhile Char.isDigit
            if es.isEmpty then none
            else some (qScale10 base (esign * (natOfDigits es : Int)), r'.drop es.length)
          else some (base, r2)
        | [] => some (base, r2)
      match step3 with
      | none => none
      | some (v, r3) => some (mkDouble (if neg then qNeg v else v), r3)

mutual
/-- one JSON value (leading whitespace allowed), returning the remainder. -/
def jsonVal : Nat → JStr → Option (JsVal × JStr)
  | 0, _ => none
  | fuel + 1, s =>
    match skipJsonWs s with
    | [] => none
    | c :: rest =>
      if c = Char.ofNat 123 then
        match skipJsonWs rest with
        | d :: rest2 =>
          if d = Char.ofNat 125 then some (.obj [], rest2)
          else jsonMembers fuel (d :: rest2) []
        | [] => none
      else if c = '[' then
        match skipJsonWs rest with
        | d :: rest2 =>
          if d = ']' then some (.arr [], rest2)
          else jsonElems fuel (d :: rest2) []
        | [] => none
      else if c = '"' then
        match jsonStringBody rest.length rest with
        | some (content, r2) => some (.str content, r2)
        | none => none
      else if hasLead (c :: rest) (("true").toList) then
        some (.jbool true, rest.drop 3)
      else if hasLead (c :: rest) (("false").toList) then
        some (.jbool false, rest.drop 4)
      else if hasLead (c :: rest) (("null").toList) then
        some (.jnull, rest.drop 3)
      else
        match jsonNumber (c :: rest) with
        | some (n, r2) => some (.num n, r2)
        | none => none

/-- members of a JSON object after the opening brace (nonempty case). -/
def jsonMembers : Nat → JStr → List (JStr × JsVal) → Option (JsVal × JStr)
  | 0, _, _ => none
  | fuel + 1, s, acc =>
    match s with
    | '"' :: rest =>
      match jsonStringBody rest.length rest with
      | some (key, r2) =>
        match skipJsonWs r2 with
        | ':' :: r3 =>
          match jsonVal fuel r3 with
          | some (v, r4) =>
            match skipJsonWs r4 with
            | ',' :: r5 =>
              match skipJsonWs r5 with
              | [] => none
              | d :: r6 => jsonMembers fuel (d :: r6) (acc ++ [(key, v)])
            | d :: r5 =>
              if d = Char.ofNat 125 then some (.obj (acc ++ [(key, v)]), r5) else none
            | [] => none
          | none => none
        | _ => none
      | none => none
    | _ => none

/-- elements of a JSON array after the opening bracket (nonempty case). -/
def jsonElems : Nat → JStr → List JsVal → Option (JsVal × JStr)
  | 0, _, _ => none
  | fuel + 1, s, acc =>
    match jsonVal fuel s with
    | some (v, r) =>
      match skipJsonWs r with
      | ',' :: r2 => jsonElems fuel r2 (acc ++ [v])
      | ']' :: r2 => some (.arr (acc ++ [v]), r2)
      | _ => none
    | none => none
end

/-- `JSON.parse(s)`: Except.error models the thrown SyntaxError. -/
def JSONparse (s : JStr) : Except Unit JsVal :=
  match jsonVal (s.length + 2) s with
  | some (v, rest) => if (skipJsonWs rest).isEmpty then Except.ok v else Except.error ()
  | none => Except.error ()

/-! ## the extraction pipeline -/

/-- `obj && obj.plan && Array.isArray(obj.plan.steps)`, yielding `obj.plan`
(src/index.js lines 643, 661). -/
def planOf (v : JsVal) : Option JsVal :=
  if truthyV v then
    let pl := getFD v (("plan").toList)
    if truthyV pl then
      match getField pl (("steps").toList) with
      | some (.arr _) => some pl
      | _ => none
    else none
  else none

/-- `obj && Array.isArray(obj.actions)`, yielding `obj.actions`
(src/index.js lines 895, 915). -/
def actionsOf (v : JsVal) : Option (List JsVal) :=
  if truthyV v then
    match getField v (("actions").toList) with
    | some (.arr xs) => some xs
    | _ => none
  else none

/-- the forward brace-matching scan of the inline strategy (src/index.js
lines 652-666): walks from `start`, counting nesting depth, and returns the
index where the depth first returns to zero at a closing brace. -/
def depthScanGo : JStr → Nat → Int → Option Nat
  | [], _, _ => none
  | c :: rest, i, depth =>
    if c = Char.ofNat 123 then depthScanGo rest (i + 1) (depth + 1)
    else if c = Char.ofNat 125 then
      if depth - 1 = 0 then some i else depthScanGo rest (i + 1) (depth - 1)
    else depthScanGo rest (i + 1) depth

def depthScan (text : JStr) (start : Nat) : Option Nat :=
  depthScanGo (text.drop start) start 0

def fenceJsonL : JStr :=
  [Char.ofNat 96, Char.ofNat 96, Char.ofNat 96, 'j', 's', 'o', 'n']

def fenceL : JStr := [Char.ofNat 96, Char.ofNat 96, Char.ofNat 96]

def lbraceC : Char := Char.ofNat 123

/-- `parsePlanFromReply(text)` (src/index.js lines 634-670): fenced-JSON
strategy first, then the inline brace-scan strategy around the first
literal occurrence of the quoted plan key; each strategy accepts only a
parse that has the plan shape, and JSON.parse failures are caught. -/
def parsePlanFromReply (text : JStr) : Option JsVal :=
  if text.isEmpty then none
  else
    let cfs := jsIndexOf text fenceJsonL
    let cfe := jsIndexOfFrom text fenceL (cfs + 7)
    let fenced : Option JsVal :=
      if cfs ≠ -1 ∧ cfe ≠ -1 then
        match JSONparse (jsTrim (jsSlice text (cfs + 7) cfe)) with
        | .ok o => planOf o
        | .error _ => none
      else none
    match fenced with
    | some pl => some pl
    | none =>
      let pki := jsIndexOf text ('"' :: ("plan").toList ++ ['"'])
      if pki ≠ -1 then
        let s1 := jsLastIndexOfChar text lbraceC pki
        let start := if s1 = -1 then jsIndexOfFrom text [lbraceC] pki else s1
        if start ≠ -1 then
          match depthScan text start.toNat with
          | some endI =>
            match JSONparse (jsSlice text start (endI + 1)) with
            | .ok o => planOf o
            | .error _ => none
          | none => none
        else none
      else none

/-- `parseJsonActionsFromReply(text)` (src/index.js lines 886-924). -/
def parseJsonActionsFromReply (text : JStr) : Option (List JsVal) :=
  if text.isEmpty then none
  else
    let cfs := jsIndexOf text fenceJsonL
    let cfe := jsIndexOfFrom text fenceL (cfs + 7)
    let fenced : Option (List JsVal) :=
      if cfs ≠ -1 ∧ cfe ≠ -1 then
        match JSONparse (jsTrim (jsSlice text (cfs + 7) cfe)) with
        | .ok o => actionsOf o
        | .error _ => none
      else none
    match fenced with
    | some as => some as
    | none =>
      let aki := jsIndexOf text ('"' :: ("actions").toList ++ ['"'])
      if aki ≠ -1 then
        let s1 := jsLastIndexOfChar text lbraceC aki
        let start := if s1 = -1 then jsIndexOfFrom text [lbraceC] aki else s1
        if start ≠ -1 then
          match depthScan text start.toNat with
          | some endI =>
            match JSONparse (jsSlice text start (endI + 1)) with
            | .ok o => actionsOf o
            | .error _ => none
          | none => none
        else none
      else none

/-! ## parseCommandLineFromReply (src/index.js lines 926-954) -/

/-- `Number(v)` coercion for strings: none models NaN.  Handles the empty /
whitespace-only string (0), the Infinity literals, hex/binary/octal
prefixes, and decimal forms with optional fraction and exponent. -/
def decNumberOf (t : JStr) : Option JsNum :=
  let (neg, s1) := match t with
    | '+' :: r => (false, r)
    | '-' :: r => (true, r)
    | _ => (false, t)
  let ds := s1.takeWhile Char.isDigit
  let r1 := s1.drop ds.length
  let fracPart : Option (ℚ × JStr) :=
    match r1 with
    | '.' :: r =>
      let fs := r.takeWhile Char.isDigit
      if ds.isEmpty ∧ fs.isEmpty then none
      else some (decValOf ds fs, r.drop fs.length)
    | _ => if ds.isEmpty then none else some (decValOf ds [], r1)
  match fracPart with
  | none => none
  | some (base, r2) =>
    let signed (v : ℚ) : ℚ := if neg then qNeg v else v
    match r2 with
    | [] => some (mkDouble (signed base))
    | e :: r =>
      if e = 'e' ∨ e = 'E' then
        let (esign, r') := match r with
          | '+' :: rr => ((1 : Int), rr)
          | '-' :: rr => ((-1 : Int), rr)
          | _ => ((1 : Int), r)
        let es := r'.takeWhile Char.isDigit
        if es.isEmpty ∨ !(r'.drop es.length).isEmpty then none
        else some (mkDouble (signed (qScale10 base (esign * (natOfDigits es : Int)))))
      else none

def radixVal (radix : Nat) (digitOf : Char → Option Nat) (rest : JStr) : Option JsNum :=
  if !rest.isEmpty ∧ rest.all (fun c => (digitOf c).isSome) then
    some (.fin ((rest.foldl (fun acc c => acc * radix + ((digitOf c).getD 0)) 0 : Nat) : ℚ))
  else none

def binVal (c : Char) : Option Nat :=
  if c = '0' then some 0 else if c = '1' then some 1 else none

def octVal (c : Char) : Option Nat :=
  if '0' ≤ c ∧ c ≤ '7' then some (c.toNat - 48) else none

def jsNumberOf (v : JStr) : Option JsNum :=
  let t := jsTrim v
  if t.isEmpty then some (.fin 0)
  else if t = ("Infinity").toList ∨ t = ("+Infinity").toList then some .inf
  else if t = ("-Infinity").toList then some .ninf
  else
    match t with
    | '0' :: x :: rest =>
      if x = 'x' ∨ x = 'X' then radixVal 16 hexVal rest
      else if x = 'b' ∨ x = 'B' then radixVal 2 binVal rest
      else if x = 'o' ∨ x = 'O' then radixVal 8 octVal rest
      else decNumberOf t
    | _ => decNumberOf t

/-- update-or-append of an object property, preserving JS property order
(reassignment keeps the original position). -/
def setParam (ps : List (JStr × JsVal)) (k : JStr) (v : JsVal) : List (JStr × JsVal) :=
  if (ps.find? (fun kv => kv.1 == k)).isSome then
    ps.map (fun kv => if kv.1 = k then (k, v) else kv)
  else ps ++ [(k, v)]

/-- `v.replace(/^['\"]|['\"]$/g, '')`: one leading and one trailing quote
character removed. -/
def stripQuotesEnds (v : JStr) : JStr :=
  let v1 := match v with
    | c :: r => if c = '\'' ∨ c = '"' then r else v
    | [] => v
  match v1.getLast? with
  | some c => if c = '\'' ∨ c = '"' then v1.dropLast else v1
  | none => v1

/-- the parameter-list loop of parseCommandLineFromReply (lines 938-951). -/
def parseCmdEntryParams (paramsStr : JStr) : List (JStr × JsVal) :=
  (splitOnC ',' paramsStr).foldl (fun acc entry =>
    let parts := splitOnC '=' entry
    let k := parts.headD []
    if k.isEmpty then acc
    else
      match parts[1]? with
      | none => setParam acc (jsTrim k) (.jbool true)
      | some v =>
        if v.isEmpty then setParam acc (jsTrim k) (.jbool true)
        else if v.contains '"' || v.contains '\'' then
          setParam acc (jsTrim k) (.str (stripQuotesEnds v))
        else
          match jsNumberOf v with
          | some n => setParam acc (jsTrim k) (.num n)
          | none => setParam acc (jsTrim k) (.str (jsTrim v))) []

/-- the per-piece regex `^([a-zA-Z0-9_]+)(?:\((.*)\))?$` (line 933): the
name is a maximal word-character run; the optional group requires an
opening parenthesis right after it and a closing parenthesis as the last
character, with no newline inside (the dot does not match line
terminators). -/
def matchCmdRe (s : JStr) : Option (JStr × Option JStr) :=
  let name := s.takeWhile isWordChar
  if name.isEmpty then none
  else
    match s.drop name.length with
    | [] => some (name, none)
    | '(' :: tail =>
      match tail.getLast? with
      | some c =>
        if c = ')' ∧ (tail.dropLast).all (fun d => d ≠ '\n' ∧ d ≠ '\r') then
          some (name, some tail.dropLast)
        else none
      | none => none
    | _ => none

def parseCmdPiece (cmd : JStr) : JsVal :=
  match matchCmdRe cmd with
  | none => .obj [(("name").toList, .str (jsTrim cmd)), (("params").toList, .obj [])]
  | some (name, pstr?) =>
    let params : List (JStr × JsVal) :=
      match pstr? with
      | none => []
      | some ps => if ps.isEmpty then [] else parseCmdEntryParams ps
    .obj [(("name").toList, .str name), (("params").toList, .obj params)]

/-- `parseCommandLineFromReply(text)` (lines 926-954): everything after the
first directive marker, trimmed, split on semicolons, one action per
piece. -/
def parseCommandLineFromReply (text : JStr) : List JsVal :=
  if text.isEmpty then []
  else
    let sep := jsIndexOf text ['/', '/']
    if sep = -1 then []
    else
      let line := jsTrim (jsSliceFrom text (sep + 2))
      if line.isEmpty then []
      else (splitOnC ';' line).map parseCmdPiece

/-! ## extractActionsLoose (src/index.js lines 558-631)

The four regex strategies are re-implemented as explicit leftmost-match
scanners with the backtracking behavior of each pattern worked out; each
definition carries the original pattern. -/

/-- placeholder substitution `replace(/USERNAME|USER|PLAYER/gi, username)`
(alternation tried left to right at each position, global,
case-insensitive). -/
def substPHGo (username : JStr) : Nat → JStr → JStr
  | 0, s => s
  | _, [] => []
  | f + 1, s@(c :: rest) =>
    match ciMatchAt s (("username").toList) with
    | some r => username ++ substPHGo username f r
    | none =>
      match ciMatchAt s (("user").toList) with
      | some r => username ++ substPHGo username f r
      | none =>
        match ciMatchAt s (("player").toList) with
        | some r => username ++ substPHGo username f r
        | none => c :: substPHGo username f rest

def substPH (username s : JStr) : JStr := substPHGo username s.length s

/-- `\s*[:\-]?\s*` (deterministic: the separator characters are not
whitespace). -/
def sepWs (s : JStr) : JStr :=
  let s1 := s.dropWhile isWsJs
  let s2 := match s1 with
    | c :: r => if c = ':' ∨ c = '-' then r else s1
    | [] => s1
  s2.dropWhile isWsJs

/-- tail `Params\s*[:\-]?\s*({[\s\S]*?})` of the structured free-text
pattern, matched at the head of `s`; the lazy group ends at the first
closing brace. -/
def paramsTailAt (s : JStr) : Option JStr :=
  match ciMatchAt s (("params").toList) with
  | none => none
  | some r =>
    match sepWs r with
    | c :: tail =>
      if c = Char.ofNat 123 then
        let inner := tail.takeWhile (fun d => d ≠ Char.ofNat 125)
        if inner.length < tail.length then
          some (Char.ofNat 123 :: inner ++ [Char.ofNat 125])
        else none
      else none
    | [] => none

/-- the lazy gap `[\s\S]*?` before the Params tail: first position where
the tail matches. -/
def findParamsTail : JStr → Option JStr
  | [] => none
  | s@(_ :: rest) =>
    match paramsTailAt s with
    | some b => some b
    | none => findParamsTail rest

/-- `Action\s*[:\-]?\s*([a-zA-Z0-9_]+)\b[\s\S]*?Params\s*[:\-]?\s*({[\s\S]*?})`
(case-insensitive) matched starting exactly at `s`; the name is a maximal
word run (which satisfies the following word boundary), the gap is lazy. -/
def actionMatchAt (s : JStr) : Option (JStr × JStr) :=
  match ciMatchAt s (("action").toList) with
  | none => none
  | some r =>
    let r1 := sepWs r
    let name := r1.takeWhile isWordChar
    if name.isEmpty then none
    else
      match findParamsTail (r1.drop name.length) with
      | some blob => some (name, blob)
      | none => none

/-- leftmost match of the structured free-text pattern. -/
def findActionMatch : JStr → Option (JStr × JStr)
  | [] => none
  | s@(_ :: rest) =>
    match actionMatchAt s with
    | some m => some m
    | none => findActionMatch rest

/-- `paramsText.replace(/^[\{\s]+|[\}\s]+$/g, '')`: strips the maximal
leading brace/whitespace run and the maximal trailing one. -/
def stripBraceWsEnds (s : JStr) : JStr :=
  let pL (c : Char) : Bool := isWsJs c || c = Char.ofNat 123
  let pR (c : Char) : Bool := isWsJs c || c = Char.ofNat 125
  ((s.dropWhile pL).reverse.dropWhile pR).reverse

/-- first match of `([a-zA-Z0-9_]+)\s*[:=]\s*(?:['"]?)([^'"\s]+)(?:['"]?)`
at the head of `s`. -/
def kvMatchAt (s : JStr) : Option (JStr × JStr) :=
  let k := s.takeWhile isWordChar
  if k.isEmpty then none
  else
    match (s.drop k.length).dropWhile isWsJs with
    | c :: r2 =>
      if c = ':' ∨ c = '=' then
        let r3 := r2.dropWhile isWsJs
        let r4 := match r3 with
          | q :: t => if q = '\'' ∨ q = '"' then t else r3
          | [] => r3
        let v := r4.takeWhile (fun d => !(isWsJs d) && d ≠ '\'' && d ≠ '"')
        if v.isEmpty then none else some (k, v)
      else none
    | [] => none

def findKvMatch : JStr → Option (JStr × JStr)
  | [] => none
  | s@(_ :: rest) =>
    match kvMatchAt s with
    | some m => some m
    | none => findKvMatch rest

/-- `isNaN(Number(x)) ? x : Number(x)`. -/
def kvCoerce (v : JStr) : JsVal :=
  match jsNumberOf v with
  | some n => .num n
  | none => .str v

/-- the key=value fallback applied when JSON.parse of the Params blob
throws (lines 572-581). -/
def kvFallback (paramsText : JStr) : JsVal :=
  .obj ((splitOnAny [';', ',', '\n'] (stripBraceWsEnds paramsText)).foldl
    (fun acc part =>
      let p := jsTrim part
      if p.isEmpty then acc
      else
        match findKvMatch p with
        | some (k, v) => setParam acc k (kvCoerce v)
        | none => acc) [])

/-- top-level string-valued placeholder substitution over a params object
(lines 583-588). -/
def substParams (username : JStr) (params : JsVal) : JsVal :=
  match params with
  | .obj fs => .obj (fs.map (fun kv =>
      match kv.2 with
      | .str s => (kv.1, JsVal.str (substPH username s))
      | v => (kv.1, v)))
  | v => v

/-- core of `/["']?command["']?\s*[:=]\s*["']([^"'\n]+)["']/i` once past the
optional leading quote. -/
def jsonCmdCore (s : JStr) : Option JStr :=
  match ciMatchAt s (("command").toList) with
  | none => none
  | some r =>
    let r1 := match r with
      | c :: t => if c = '"' ∨ c = '\'' then t else r
      | [] => r
    match r1.dropWhile isWsJs with
    | c :: r2 =>
      if c = ':' ∨ c = '=' then
        match r2.dropWhile isWsJs with
        | q :: r4 =>
          if q = '"' ∨ q = '\'' then
            let v := r4.takeWhile (fun d => d ≠ '"' && d ≠ '\'' && d ≠ '\n')
            if v.isEmpty then none
            else
              match r4.drop v.length with
              | e :: _ => if e = '"' ∨ e = '\'' then some v else none
              | [] => none
          else none
        | [] => none
      else none
    | [] => none

def jsonCmdAt (s : JStr) : Option JStr :=
  match s with
  | c :: t =>
    if c = '"' ∨ c = '\'' then
      match jsonCmdCore t with
      | some v => some v
      | none => jsonCmdCore s
    else jsonCmdCore s
  | [] => none

def findJsonCmd : JStr → Option JStr
  | [] => none
  | s@(_ :: rest) =>
    match jsonCmdAt s with
    | some v => some v
    | none => findJsonCmd rest

/-- capture part `["']?([^"')]+)["']?\s*\)` of the function-call pattern:
the greedy capture ends at the first quote or closing parenthesis, after
which either the parenthesis follows directly or a quote plus optional
whitespace does (shortening the capture cannot create further matches, so
this is the full backtracking behavior). -/
def funcCaptureFrom (r5 : JStr) : Option JStr :=
  let v := r5.takeWhile (fun d => d ≠ '"' && d ≠ '\'' && d ≠ ')')
  if v.isEmpty then none
  else
    match r5.drop v.length with
    | c :: r6 =>
      if c = ')' then some v
      else if c = '"' ∨ c = '\'' then
        match r6.dropWhile isWsJs with
        | d :: _ => if d = ')' then some v else none
        | [] => none
      else none
    | [] => none

def funcCapture (r4 : JStr) : Option JStr :=
  match r4 with
  | q :: t =>
    if q = '"' ∨ q = '\'' then
      match funcCaptureFrom t with
      | some v => some v
      | none => funcCaptureFrom r4
    else funcCaptureFrom r4
  | [] => none

/-- `/command\s*\(\s*(?:command\s*=\s*)?["']?([^"')]+)["']?\s*\)/i` matched
starting exactly at `s`; the optional inner `command=` group is tried
first (greedy), falling back to matching the capture directly. -/
def funcAt (s : JStr) : Option JStr :=
  match ciMatchAt s (("command").toList) with
  | none => none
  | some r =>
    match r.dropWhile isWsJs with
    | '(' :: r2 =>
      let r3 := r2.dropWhile isWsJs
      let afterEq : Option JStr :=
        match ciMatchAt r3 (("command").toList) with
        | some a =>
          match a.dropWhile isWsJs with
          | '=' :: b => some (b.dropWhile isWsJs)
          | _ => none
        | none => none
      match afterEq with
      | some r4 =>
        match funcCapture r4 with
        | some v => some v
        | none => funcCapture r3
      | none => funcCapture r3
    | _ => none

def findFunc : JStr → Option JStr
  | [] => none
  | s@(_ :: rest) =>
    match funcAt s with
    | some v => some v
    | none => findFunc rest

def ciContainsGo : JStr → JStr → Bool
  | [], pat => pat.isEmpty
  | s@(_ :: rest), pat => (ciMatchAt s pat).isSome || ciContainsGo rest pat

/-- `/\/\/[^\n]*command[^\n]*/i`: the first directive marker whose line
contains the command keyword; the whole match runs to the end of that
line. -/
def findInlineCmdLine : JStr → Option JStr
  | [] => none
  | c :: rest =>
    (if c = '/' then
      match rest with
      | d :: r2 =>
        if d = '/' then
          let line := r2.takeWhile (fun e => e ≠ '\n')
          if ciContainsGo line (("command").toList) then some ('/' :: '/' :: line)
          else none
        else none
      | [] => none
     else none).orElse (fun _ => findInlineCmdLine rest)

/-- `/command\s*\(\s*([^\)]+)\s*\)/i` matched starting exactly at `s`: the
leading whitespace inside the parentheses is consumed greedily but gives
one character back when the content is whitespace-only. -/
def innerCmdAt (s : JStr) : Option JStr :=
  match ciMatchAt s (("command").toList) with
  | none => none
  | some r =>
    match r.dropWhile isWsJs with
    | '(' :: r2 =>
      let chunk := r2.takeWhile (fun d => d ≠ ')')
      if chunk.length = r2.length then none
      else if chunk.isEmpty then none
      else
        let wsLen := (chunk.takeWhile isWsJs).length
        let k := if wsLen < chunk.length then wsLen else chunk.length - 1
        some (chunk.drop k)
    | _ => none

def findInnerCmd : JStr → Option JStr
  | [] => none
  | s@(_ :: rest) =>
    match innerCmdAt s with
    | some v => some v
    | none => findInnerCmd rest

/-- first quoted run `/['"]([^'"]+)['"]/`. -/
def firstQuoted : JStr → Option JStr
  | [] => none
  | c :: rest =>
    if c = '\'' ∨ c = '"' then
      let v := rest.takeWhile (fun d => d ≠ '\'' && d ≠ '"')
      if !v.isEmpty ∧ v.length < rest.length then some v
      else firstQuoted rest
    else firstQuoted rest

def mkActionObj (name : JStr) (params : JsVal) : JsVal :=
  .obj [(("name").toList, .str name), (("params").toList, params)]

def mkCmdAction (cmd : JStr) : JsVal :=
  mkActionObj (("command").toList) (.obj [(("command").toList, .str cmd)])

/-- the dedupe key `(a.name || '') + '|' + (a.params && a.params.command ?
a.params.command : JSON.stringify(a.params || {}))` (line 627). -/
def dedupeKey (a : JsVal) : JStr :=
  let nm := if truthyO (getField a (("name").toList))
            then jsToStr (getFD a (("name").toList)) else []
  let ps := getField a (("params").toList)
  let tail :=
    if truthyO ps ∧ truthyO (getField (getFD a (("params").toList)) (("command").toList)) then
      jsToStr (getFD (getFD a (("params").toList)) (("command").toList))
    else
      jsonStringify (if truthyO ps then getFD a (("params").toList) else .obj [])
  nm ++ '|' :: tail

def dedupeGo : List JsVal → List JStr → List JsVal
  | [], _ => []
  | a :: rest, seen =>
    let k := dedupeKey a
    if seen.contains k then dedupeGo rest seen
    else a :: dedupeGo rest (k :: seen)

def dedupe (acts : List JsVal) : List JsVal := dedupeGo acts []

/-- `extractActionsLoose(text, username)` (src/index.js lines 558-631). -/
def extractActionsLoose (text username : JStr) : List JsVal :=
  if text.isEmpty then []
  else
    let acts1 : List JsVal :=
      match findActionMatch text with
      | some (name, blob) =>
        let params := match JSONparse blob with
          | .ok v => v
          | .error _ => kvFallback blob
        [mkActionObj (toLowerL name) (substParams username params)]
      | none => []
    let acts2 : List JsVal :=
      match findJsonCmd text with
      | some v => [mkCmdAction (substPH username (jsTrim v))]
      | none => []
    let acts3 : List JsVal :=
      match findFunc text with
      | some v => [mkCmdAction (substPH username (jsTrim v))]
      | none => []
    let acts4 : List JsVal :=
      match findInlineCmdLine text with
      | some inner =>
        match findInnerCmd inner with
        | some body =>
          let cmd := match firstQuoted body with
            | some q => q
            | none => body
          [mkCmdAction (jsTrim (substPH username cmd))]
        | none => []
      | none => []
    let acts := acts1 ++ acts2 ++ acts3 ++ acts4
    if acts.isEmpty then [] else dedupe acts

/-! ## concrete fixtures used by the theorems -/

/-- an idle world: not busy, agent at the origin, empty chat transcript. -/
def w0 : World := ⟨⟨false, none⟩, (.fin 0, .fin 0, .fin 0), []⟩

/-- a world whose session is busy with a task label. -/
def wBusy : World := ⟨⟨true, some (("task").toList)⟩, (.fin 0, .fin 0, .fin 0), []⟩

/-- a collaborator that logs each dispatched action to chat and succeeds. -/
def execLog : Dispatch :=
  fun a w => (botChat (("dispatched:").toList ++ a.name) w, Except.ok true)

/-- a collaborator whose dig dispatch throws (after a visible side effect)
and whose other dispatches succeed with a visible side effect. -/
def execThrow : Dispatch :=
  fun a w =>
    if a.name = ("dig").toList then (botChat (("A-ran").toList) w, Except.error ())
    else (botChat (("B-ran").toList) w, Except.ok true)

/-- a collaborator that moves the agent to the requested coordinates (as a
successful goto would) and logs the move. -/
def execMove : Dispatch :=
  fun a w =>
    match getNumXYZ a.params with
    | some c => (botChat (("moved").toList) { w with pos := c }, Except.ok true)
    | none => (botChat (("nocoords").toList) w, Except.ok true)

/-- an executeAction collaborator for the chat-triggered loop: dig actions
throw, everything else succeeds; every call leaves one visible marker. -/
def execMark : JsVal → World → World × Except Unit Bool :=
  fun a w =>
    if jsToStr (getFD a (("name").toList)) = ("dig").toList then
      (botChat (("tried:").toList ++ jsToStr (getFD a (("name").toList))) w, Except.error ())
    else
      (botChat (("tried:").toList ++ jsToStr (getFD a (("name").toList))) w, Except.ok true)

/-- marker left by `execMark` on an action value. -/
def markOf (a : JsVal) : JStr := ("tried:").toList ++ jsToStr (getFD a (("name").toList))

/-- a plan step `{ name: nm, params: { x, y, z } }` with JS-number
coordinates. -/
def mkStepN (nm : JStr) (x y z : JsNum) : JsVal :=
  .obj [(("name").toList, .str nm),
        (("params").toList, .obj [(("x").toList, .num x),
                                  (("y").toList, .num y),
                                  (("z").toList, .num z)])]

/-- a plan step with finite rational coordinates. -/
def mkStepQ (nm : JStr) (x y z : ℚ) : JsVal := mkStepN nm (.fin x) (.fin y) (.fin z)

/-- a plan step with an arbitrary params value. -/
def mkStepP (nm : JStr) (p : JsVal) : JsVal :=
  .obj [(("name").toList, .str nm), (("params").toList, p)]

def inspectStepQ (x y z : ℚ) : JsVal := mkStepQ (("inspect").toList) x y z

def gotoStepQ (x y z : ℚ) : JsVal := mkStepQ (("goto").toList) x y z

def digStep000 : JsVal := mkStepQ (("dig").toList) 0 0 0

def inspectStep000 : JsVal := inspectStepQ 0 0 0

/-- a status step (a CompoundSet name) with in-range coordinates. -/
def statusStep000 : JsVal := mkStepQ (("status").toList) 0 0 0

/-- a goto step whose x coordinate is the number Infinity (reachable from
JSON via an overflowing literal such as 1e999). -/
def gotoInfStep : JsVal := mkStepN (("goto").toList) .inf (.fin 0) (.fin 0)

/-- a goto step whose x coordinate is NaN. -/
def gotoNanStep : JsVal := mkStepN (("goto").toList) .nan (.fin 0) (.fin 0)

/-- a params object whose x coordinate is NaN. -/
def nanParams : JsVal :=
  .obj [(("x").toList, .num .nan), (("y").toList, .num (.fin 0)),
        (("z").toList, .num (.fin 0))]

/-- the priority example of the specification: a fenced JSON plan followed
by a directive line. -/
def exText : JStr :=
  ("```json\n\x7b\"plan\":\x7b\"steps\":[\x7b\"name\":\"inspect\",\"params\":\x7b\"x\":1,\"y\":2,\"z\":3\x7d\x7d]\x7d\x7d\n```\n//dig(x=5,y=5,z=5)").toList

def exStep : JsVal :=
  .obj [(("name").toList, .str (("inspect").toList)),
        (("params").toList, .obj [(("x").toList, .num (.fin 1)),
                                  (("y").toList, .num (.fin 2)),
                                  (("z").toList, .num (.fin 3))])]

def exPlan : JsVal := .obj [(("steps").toList, .arr [exStep])]

def exObj : JsVal := .obj [(("plan").toList, exPlan)]

/-- structureless garbage input. -/
def garbage1 : JStr := ("x@#$%^&* nonsense text with no structure at all").toList

/-- deeply nested braces around no valid JSON, next to a plan key. -/
def deepBraces : JStr :=
  ("\"plan\" \x7b\x7b\x7b\x7b\x7b\x7b\x7b\x7b\x7b\x7bx\x7d\x7d\x7d\x7d\x7d\x7d\x7d\x7d\x7d\x7d").toList

/-- truncated fenced JSON (no closing fence, unbalanced braces). -/
def truncJson : JStr := ("```json\n\x7b\"plan\":\x7b\"steps\":[\x7b\"name\"").toList

/-- truncated inline actions JSON. -/
def truncJson2 : JStr := ("\x7b\"actions\":[\x7b\"name\":\"goto\"").toList

def user1 : JStr := ("bob").toList

/-- a 250-character plain input for the sanitizer bound. -/
def aRun : JStr := List.replicate 250 'a'

/-! # Theorems

First the bridge lemmas promised above, then helper lemmas about the
distance check and the executor loop, then one theorem (plus witness /
counterexample where applicable) per claim. -/

/-- the mkRat-based addition agrees with rational addition. -/
theorem qAdd_eq (a b : ℚ) : qAdd a b = a + b := by
  have ha : (a.den : ℤ) ≠ 0 := by exact_mod_cast a.den_nz
  have hb : (b.den : ℤ) ≠ 0 := by exact_mod_cast b.den_nz
  rw [qAdd, Rat.mkRat_eq_divInt, Nat.cast_mul,
      ← Rat.divInt_add_divInt _ _ ha hb, Rat.num_divInt_den, Rat.num_divInt_den]

/-- the mkRat-based subtraction agrees with rational subtraction. -/
theorem qSub_eq (a b : ℚ) : qSub a b = a - b := by
  have ha : (a.den : ℤ) ≠ 0 := by exact_mod_cast a.den_nz
  have hb : (b.den : ℤ) ≠ 0 := by exact_mod_cast b.den_nz
  rw [qSub, Rat.mkRat_eq_divInt, Nat.cast_mul,
      ← Rat.divInt_sub_divInt _ _ ha hb, Rat.num_divInt_den, Rat.num_divInt_den]

/-- the mkRat-based multiplication agrees with rational multiplication. -/
theorem qMul_eq (a b : ℚ) : qMul a b = a * b := by
  rw [qMul, Rat.mkRat_eq_divInt, Nat.cast_mul, ← Rat.divInt_mul_divInt',
      Rat.num_divInt_den, Rat.num_divInt_den]

/-- the mkRat-based negation agrees with rational negation. -/
theorem qNeg_eq (a : ℚ) : qNeg a = -a := by
  rw [qNeg, Rat.mkRat_eq_divInt, ← Rat.neg_def]

/-- the boolean comparison decides the strict order. -/
theorem qLtB_iff (a b : ℚ) : qLtB a b = true ↔ a < b := Eq.to_iff rfl

/-- the boolean zero test decides equality with zero. -/
theorem qEqZero_iff (a : ℚ) : qEqZero a = true ↔ a = 0 := by
  rw [qEqZero, beq_iff_eq, Rat.num_eq_zero]

/-- the distance check never rejects the agent's own (finite) position. -/
theorem distToGt10_self (a b c : ℚ) :
    distToGt10 (.fin a, .fin b, .fin c) (.fin a, .fin b, .fin c) = false := by
  have hz : ∀ x : ℚ, qSub x x = 0 := fun x => by rw [qSub_eq, sub_self]
  have hm : qMul 0 0 = (0 : ℚ) := by rw [qMul_eq]; ring
  have hA : qAdd 0 0 = (0 : ℚ) := by rw [qAdd_eq]; ring
  simp only [distToGt10, jsSub, hz, jsMul, hm, jsAdd, hA]
  decide

/-- a NaN coordinate makes the distance NaN, and a NaN comparison is false:
such a step is never rejected as out of range. -/
theorem distToGt10_nanx (pos : JsNum × JsNum × JsNum) (y z : JsNum) :
    distToGt10 pos (.nan, y, z) = false := by
  obtain ⟨p1, p2, p3⟩ := pos
  cases p1 <;> cases p2 <;> cases p3 <;> cases y <;> cases z <;> rfl

/-- an infinite coordinate makes the distance infinite, which is rejected
as out of range (not as missing coordinates). -/
theorem distToGt10_infx (a b c y z : ℚ) :
    distToGt10 (.fin a, .fin b, .fin c) (.inf, .fin y, .fin z) = true := rfl

/-- one executor iteration on a step whose coordinates fail the
number-type check: chat notice, then the rest of the plan. -/
theorem loop_missing (exec : Dispatch) (s : JsVal) (rest : List JsVal) (w : World)
    (h1 : (truthyV s && truthyO (getField s (("name").toList))) = true)
    (h2 : getNumXYZ (stepParamsOf s) = none) :
    executePlanLoop exec (s :: rest) w = executePlanLoop exec rest (botChat missingMsg w) := by
  simp only [executePlanLoop, h1, Bool.not_true, Bool.false_eq_true, if_false, h2]

/-- one executor iteration on an out-of-range step: chat notice, then the
rest of the plan. -/
theorem loop_oor (exec : Dispatch) (s : JsVal) (rest : List JsVal) (w : World)
    (x y z : JsNum)
    (h1 : (truthyV s && truthyO (getField s (("name").toList))) = true)
    (h2 : getNumXYZ (stepParamsOf s) = some (x, y, z))
    (h3 : distToGt10 w.pos (x, y, z) = true) :
    executePlanLoop exec (s :: rest) w
      = executePlanLoop exec rest (botChat (oorMsg x y z) w) := by
  simp only [executePlanLoop, h1, Bool.not_true, Bool.false_eq_true, if_false, h2, h3, if_true]

/-- one executor iteration on an in-range step whose name is not
whitelisted: chat notice, then the rest of the plan. -/
theorem loop_unsup (exec : Dispatch) (s : JsVal) (rest : List JsVal) (w : World)
    (x y z : JsNum)
    (h1 : (truthyV s && truthyO (getField s (("name").toList))) = true)
    (h2 : getNumXYZ (stepParamsOf s) = some (x, y, z))
    (h3 : distToGt10 w.pos (x, y, z) = false)
    (h4 : supportedSteps.contains (stepNameOf s) = false) :
    executePlanLoop exec (s :: rest) w
      = executePlanLoop exec rest (botChat (unsupMsg (stepNameOf s)) w) := by
  simp only [executePlanLoop, h1, Bool.not_true, Bool.false_eq_true, if_false, h2, h3, h4,
    Bool.not_false, if_true]

/-- one executor iteration on a valid supported step without rationale:
dispatch, propagating a thrown exception, otherwise continuing. -/
theorem loop_run (exec : Dispatch) (s : JsVal) (rest : List JsVal) (w : World)
    (x y z : JsNum)
    (h1 : (truthyV s && truthyO (getField s (("name").toList))) = true)
    (h2 : getNumXYZ (stepParamsOf s) = some (x, y, z))
    (h3 : distToGt10 w.pos (x, y, z) = false)
    (h4 : supportedSteps.contains (stepNameOf s) = true)
    (h5 : truthyO (getField s (("rationale").toList)) = false) :
    executePlanLoop exec (s :: rest) w
      = (match exec ⟨stepNameOf s, stepParamsOf s⟩ w with
         | (w2, Except.error e) => (w2, Except.error e)
         | (w2, Except.ok _) => executePlanLoop exec rest w2) := by
  simp only [executePlanLoop, h1, Bool.not_true, Bool.false_eq_true, if_false, h2, h3, h4,
    Bool.not_true, h5]

/-- any property preserved by chat notices and by the dispatch collaborator
is preserved by a whole executor run. -/
theorem executePlanLoop_inv (P : World → Prop) (exec : Dispatch)
    (hchat : ∀ m w, P w → P (botChat m w))
    (hexec : ∀ a u, P u → P ((exec a u).1)) :
    ∀ (steps : List JsVal) (w : World), P w → P ((executePlanLoop exec steps w).1) := by
  intro steps
  induction steps with
  | nil => intro w hw; exact hw
  | cons s rest ih =>
    intro w hw
    simp only [executePlanLoop]
    split
    · exact ih w hw
    · split
      · split
        · exact ih _ (hchat _ _ hw)
        · split
          · exact ih _ (hchat _ _ hw)
          · have hw1 : P (if truthyO (getField s (("rationale").toList)) = true
                then botChat (ratMsg (getFD s (("rationale").toList))) w else w) := by
              split
              · exact hchat _ _ hw
              · exact hw
            split
            · next w2 e heq =>
              have h2 := hexec ⟨stepNameOf s, stepParamsOf s⟩ _ hw1
              rw [heq] at h2
              exact h2
            · next w2 r heq =>
              have h2 := hexec ⟨stepNameOf s, stepParamsOf s⟩ _ hw1
              rw [heq] at h2
              exact ih _ h2
      · exact ih _ (hchat _ _ hw)

/-- the plan shape check only accepts values whose steps field is an
array. -/
theorem planOf_shape {o pl : JsVal} (h : planOf o = some pl) :
    ∃ xs, getField pl (("steps").toList) = some (.arr xs) := by
  simp only [planOf] at h
  split at h
  · split at h
    · split at h
      · next xs heq =>
        obtain rfl := Option.some.inj h
        exact ⟨xs, heq⟩
      · exact absurd h (by simp)
    · exact absurd h (by simp)
  · exact absurd h (by simp)

/-- both extraction strategies of the plan parser only succeed with a value
produced by the plan shape check. -/
theorem strategyOf_shape (e : Except Unit JsVal) (pl : JsVal)
    (h : (match e with | Except.ok o => planOf o | Except.error _ => none) = some pl) :
    ∃ xs, getField pl (("steps").toList) = some (.arr xs) := by
  cases e with
  | ok o => exact planOf_shape h
  | error e => exact Option.noConfusion h

/-- Claim C1 (corrected), counterexample: calling executePlan while the
session is busy does not return attempted=false without side effects — the
plan is attempted (return value ok true) and its step is dispatched (a chat
side effect is visible). -/
theorem c1_counterexample :
    (executePlan execLog (.arr [inspectStep000]) wBusy).2 = Except.ok true ∧
    ((executePlan execLog (.arr [inspectStep000]) wBusy).1).chat
      = [("dispatched:inspect").toList] :=
  ⟨rfl, rfl⟩

/-- Claim C1 (corrected, amended): the busy gate lives in plannerTick, which
returns with no effect whenever the session is busy; executePlan itself
neither checks nor modifies the session — for any dispatch collaborator
that leaves the session alone, a whole executePlan run leaves the session
exactly as it found it (in particular it never sets busy or a task label). -/
theorem c1_amended :
    (∀ (running : Bool) (requestPlan : World → World × Option JsVal) (exec : Dispatch)
       (wander : World → World) (w : World),
       w.sess.busy = true → plannerTick running requestPlan exec wander w = w) ∧
    (∀ (exec : Dispatch) (steps : List JsVal) (w : World),
       (∀ a u, ((exec a u).1).sess = u.sess) →
       ((executePlanLoop exec steps w).1).sess = w.sess) := by
  constructor
  · intro running req exec wander w hb
    simp [plannerTick, hb]
  · intro exec steps w hexec
    exact executePlanLoop_inv (fun u => u.sess = w.sess) exec
      (fun m u hu => hu)
      (fun a u hu => by show ((exec a u).1).sess = w.sess; rw [hexec a u]; exact hu)
      steps w rfl

/-- Claim C1 witness: a busy tick is dropped unchanged, and a concrete
executePlan run leaves the session unchanged. -/
theorem c1_witness :
    plannerTick true (fun w => (w, none)) execLog id wBusy = wBusy ∧
    ((executePlanLoop execLog [inspectStep000] w0).1).sess = w0.sess := by
  refine ⟨c1_amended.1 true _ execLog id wBusy rfl,
          c1_amended.2 execLog [inspectStep000] w0 ?_⟩
  intro a u; rfl

/-- Claim C2 (corrected), counterexample: in executePlan a step whose
dispatch throws aborts the remaining steps — with plan [dig (throws),
inspect (would succeed)], only the first step's side effect appears, the
exception propagates, and executePlan does not return attempted=true. -/
theorem c2_counterexample :
    executePlan execThrow (.arr [digStep000, inspectStep000]) w0
      = ({ w0 with chat := [("A-ran").toList] }, Except.error ()) := rfl

/-- Claim C2 (corrected, amended): in the chat-triggered action loop of
gptPlanAndExecute each dispatch is individually caught, so for any
collaborator that leaves one visible marker per action — whether it throws
or returns — every action of the list is attempted in order and the loop
returns attempted=true. -/
theorem c2_amended (execA : JsVal → World → World × Except Unit Bool) (f : JsVal → JStr)
    (actions : List JsVal) (w : World)
    (h : ∀ a u, ((execA a u).1).chat = u.chat ++ [f a]) :
    (gptExecuteLoop execA actions w).2 = true ∧
    ((gptExecuteLoop execA actions w).1).chat = w.chat ++ actions.map f := by
  induction actions generalizing w with
  | nil => exact ⟨rfl, by simp [gptExecuteLoop]⟩
  | cons a rest ih =>
    constructor
    · simp only [gptExecuteLoop]
      exact (ih ((execA a w).1)).1
    · simp only [gptExecuteLoop, List.map_cons]
      rw [(ih ((execA a w).1)).2, h a w]
      simp

/-- Claim C2 witness: with a first action that throws and a second that
succeeds, both are attempted and the loop returns true. -/
theorem c2_witness :
    (gptExecuteLoop execMark [digStep000, inspectStep000] w0).2 = true ∧
    ((gptExecuteLoop execMark [digStep000, inspectStep000] w0).1).chat
      = w0.chat ++ [digStep000, inspectStep000].map markOf := by
  refine c2_amended execMark markOf [digStep000, inspectStep000] w0 ?_
  intro a u
  simp only [execMark, markOf]
  split <;> rfl

/-- Claim C3 (corrected), counterexample: an 11-step plan has all 11 steps
validated and dispatched — more than any 8-10 cap allows. -/
theorem c3_counterexample :
    ((executePlan execLog (.arr (List.replicate 11 (inspectStepQ 0 0 0))) w0).1).chat.length
      = 11 ∧ 10 < 11 :=
  ⟨rfl, by norm_num⟩

/-- Claim C3 (corrected, amended): executePlan enforces no length cap — a
plan of n valid in-range inspect steps, for every n, dispatches exactly n
steps and returns true. -/
theorem c3_amended (n : Nat) (a b c : ℚ) (w : World)
    (hpos : w.pos = (.fin a, .fin b, .fin c)) :
    (executePlan execLog (.arr (List.replicate n (inspectStepQ a b c))) w).2 = Except.ok true ∧
    ((executePlan execLog (.arr (List.replicate n (inspectStepQ a b c))) w).1).chat
      = w.chat ++ List.replicate n (("dispatched:inspect").toList) := by
  have main : ∀ (m : Nat) (u : World), u.pos = (.fin a, .fin b, .fin c) →
      executePlanLoop execLog (List.replicate m (inspectStepQ a b c)) u
        = ({ u with chat := u.chat ++ List.replicate m (("dispatched:inspect").toList) },
           Except.ok true) := by
    intro m
    induction m with
    | zero =>
      intro u hu
      simp [executePlanLoop]
    | succ k ih =>
      intro u hu
      rw [List.replicate_succ]
      rw [loop_run execLog (inspectStepQ a b c) _ u (.fin a) (.fin b) (.fin c) rfl rfl
        (by rw [hu]; exact distToGt10_self a b c) rfl rfl]
      have hred : (match execLog ⟨stepNameOf (inspectStepQ a b c),
            stepParamsOf (inspectStepQ a b c)⟩ u with
          | (w2, Except.error e) => (w2, Except.error e)
          | (w2, Except.ok _) => executePlanLoop execLog (List.replicate k (inspectStepQ a b c)) w2)
          = executePlanLoop execLog (List.replicate k (inspectStepQ a b c))
              (botChat (("dispatched:inspect").toList) u) := rfl
      rw [hred, ih (botChat (("dispatched:inspect").toList) u) hu]
      simp [botChat, List.replicate_succ]
  have h := main n w hpos
  constructor
  · show (executePlanLoop execLog (List.replicate n (inspectStepQ a b c)) w).2 = Except.ok true
    rw [h]
  · show ((executePlanLoop execLog (List.replicate n (inspectStepQ a b c)) w).1).chat = _
    rw [h]

/-- Claim C3 witness: the amended statement at n = 11, beyond every
claimed cap. -/
theorem c3_witness :
    (executePlan execLog (.arr (List.replicate 11 (inspectStepQ 0 0 0))) w0).2
      = Except.ok true ∧
    ((executePlan execLog (.arr (List.replicate 11 (inspectStepQ 0 0 0))) w0).1).chat
      = w0.chat ++ List.replicate 11 (("dispatched:inspect").toList) :=
  c3_amended 11 0 0 0 w0 rfl

/-- Claim C4 (corrected), counterexample: a step named status — a
CompoundSet helper — with valid in-range coordinates is rejected by
executePlan with the unsupported-step-type notice and is not dispatched. -/
theorem c4_counterexample :
    executePlan execLog (.arr [statusStep000]) w0
      = ({ w0 with chat := [("Skipping unsupported step type: status").toList] },
         Except.ok true) := rfl

/-- Claim C4 (corrected, amended): for steps that pass the coordinate and
range checks, executePlan rejects as unsupported exactly the names whose
lowercase form is outside the four-primitive whitelist (compound and
command names included), and either way the remaining steps still run. -/
theorem c4_amended (nm : JStr) (hnm : nm ≠ []) (x y z : ℚ) (w : World) (rest : List JsVal)
    (hdist : distToGt10 w.pos (.fin x, .fin y, .fin z) = false) :
    executePlanLoop execLog (mkStepQ nm x y z :: rest) w
      = (if supportedSteps.contains (toLowerL nm) then
           executePlanLoop execLog rest (botChat (("dispatched:").toList ++ toLowerL nm) w)
         else
           executePlanLoop execLog rest (botChat (unsupMsg (toLowerL nm)) w)) := by
  obtain ⟨ch, tl, rfl⟩ := List.exists_cons_of_ne_nil hnm
  have h1 : (truthyV (mkStepQ (ch :: tl) x y z) &&
      truthyO (getField (mkStepQ (ch :: tl) x y z) (("name").toList))) = true := rfl
  have h2 : getNumXYZ (stepParamsOf (mkStepQ (ch :: tl) x y z))
      = some (.fin x, .fin y, .fin z) := rfl
  have hname : stepNameOf (mkStepQ (ch :: tl) x y z) = toLowerL (ch :: tl) := rfl
  by_cases hc : supportedSteps.contains (toLowerL (ch :: tl)) = true
  · rw [loop_run execLog _ rest w _ _ _ h1 h2 hdist (hname ▸ hc) rfl]
    have hred : (match execLog ⟨stepNameOf (mkStepQ (ch :: tl) x y z),
          stepParamsOf (mkStepQ (ch :: tl) x y z)⟩ w with
        | (w2, Except.error e) => (w2, Except.error e)
        | (w2, Except.ok _) => executePlanLoop execLog rest w2)
        = executePlanLoop execLog rest
            (botChat (("dispatched:").toList ++ toLowerL (ch :: tl)) w) := rfl
    rw [hred, hc]
    simp
  · have hc' : supportedSteps.contains (toLowerL (ch :: tl)) = false := by
      cases h : supportedSteps.contains (toLowerL (ch :: tl))
      · rfl
      · exact absurd h hc
    rw [loop_unsup execLog _ rest w _ _ _ h1 h2 hdist (hname ▸ hc'), hname, hc']
    simp

/-- Claim C4 witness: gotoplayer — a CompoundSet name — takes the
unsupported branch of the amended statement. -/
theorem c4_witness :
    executePlanLoop execLog [mkStepQ (("gotoplayer").toList) 0 0 0] w0
      = (if supportedSteps.contains (toLowerL (("gotoplayer").toList)) then
           executePlanLoop execLog []
             (botChat (("dispatched:").toList ++ toLowerL (("gotoplayer").toList)) w0)
         else
           executePlanLoop execLog []
             (botChat (unsupMsg (toLowerL (("gotoplayer").toList))) w0)) :=
  c4_amended (("gotoplayer").toList) (by decide) 0 0 0 w0 [] (by decide)

/-- Claim C5 (corrected), counterexample: a goto step with x = Infinity is
not rejected with the missing-coordinates reason the claim requires for
non-finite coordinates — it is rejected with the out-of-range notice. -/
theorem c5_counterexample :
    executePlan execLog (.arr [gotoInfStep]) w0
      = ({ w0 with chat := [("Skipping out-of-range step at Infinity,0,0").toList] },
         Except.ok true) ∧
    ("Skipping out-of-range step at Infinity,0,0").toList ≠ missingMsg :=
  ⟨rfl, by decide⟩

/-- Claim C5 (corrected, amended): the coordinate check is a number-type
check, not a finiteness check — a goto step is rejected as missing
coordinates exactly when some of params.x/y/z is not number-typed; steps
with number-typed coordinates are rejected as out of range exactly when
the per-step distance comparison holds, where a NaN coordinate makes the
comparison false (so the step is dispatched) and an infinite coordinate
makes it true; the spec's accept/reject examples at the origin hold, and
the distance is evaluated against the agent's position at the time of the
step, as the two-step goto run shows. -/
theorem c5_amended :
    (∀ (p : JsVal) (w : World),
       getNumXYZ (stepParamsOf (mkStepP (("goto").toList) p)) = none →
       executePlanLoop execLog [mkStepP (("goto").toList) p] w
         = (botChat missingMsg w, Except.ok true)) ∧
    (∀ (p : JsVal) (w : World) (x y z : JsNum),
       getNumXYZ (stepParamsOf (mkStepP (("goto").toList) p)) = some (x, y, z) →
       distToGt10 w.pos (x, y, z) = true →
       executePlanLoop execLog [mkStepP (("goto").toList) p] w
         = (botChat (oorMsg x y z) w, Except.ok true)) ∧
    (∀ (p : JsVal) (w : World) (x y z : JsNum),
       getNumXYZ (stepParamsOf (mkStepP (("goto").toList) p)) = some (x, y, z) →
       distToGt10 w.pos (x, y, z) = false →
       executePlanLoop execLog [mkStepP (("goto").toList) p] w
         = (botChat (("dispatched:goto").toList) w, Except.ok true)) ∧
    (∀ (pos : JsNum × JsNum × JsNum) (y z : JsNum), distToGt10 pos (.nan, y, z) = false) ∧
    (∀ a b c y z : ℚ, distToGt10 (.fin a, .fin b, .fin c) (.inf, .fin y, .fin z) = true) ∧
    executePlan execLog (.arr [gotoStepQ 20 0 0]) w0
      = ({ w0 with chat := [("Skipping out-of-range step at 20,0,0").toList] },
         Except.ok true) ∧
    executePlan execLog (.arr [gotoStepQ 5 0 5]) w0
      = ({ w0 with chat := [("dispatched:goto").toList] }, Except.ok true) ∧
    executePlan execMove (.arr [gotoStepQ 5 0 5, gotoStepQ 10 0 5]) w0
      = (⟨w0.sess, (.fin 10, .fin 0, .fin 5),
           [("moved").toList, ("moved").toList]⟩, Except.ok true) ∧
    executePlan execMove (.arr [gotoStepQ 10 0 5]) w0
      = ({ w0 with chat := [("Skipping out-of-range step at 10,0,5").toList] },
         Except.ok true) := by
  refine ⟨?_, ?_, ?_, distToGt10_nanx, distToGt10_infx, rfl, rfl, rfl, rfl⟩
  · intro p w h
    rw [loop_missing execLog (mkStepP (("goto").toList) p) [] w rfl h]
    rfl
  · intro p w x y z h hd
    rw [loop_oor execLog (mkStepP (("goto").toList) p) [] w x y z rfl h hd]
    rfl
  · intro p w x y z h hd
    rw [loop_run execLog (mkStepP (("goto").toList) p) [] w x y z rfl h hd rfl rfl]
    rfl

/-- Claim C5 witness: a goto step whose x is NaN passes both checks and is
dispatched (the claim's finiteness requirement would have rejected it). -/
theorem c5_witness :
    executePlanLoop execLog [mkStepP (("goto").toList) nanParams] w0
      = (botChat (("dispatched:goto").toList) w0, Except.ok true) :=
  c5_amended.2.2.1 nanParams w0 .nan (.fin 0) (.fin 0) rfl
    (c5_amended.2.2.2.1 w0.pos (.fin 0) (.fin 0))

/-- Claim C6 (confirmed): for a nonempty command, the gate succeeds exactly
when commandsEnabled or elevated holds; when both are false the command is
refused with the refusal notice and nothing is forwarded, and when either
holds the command is forwarded over chat (slash-prefixed) with result
true. -/
theorem c6_confirmed (allow op : Bool) (cmd : JStr) (w : World) (h : cmd ≠ []) :
    ((tryExecuteCommand allow op cmd w).2 = true ↔ (allow = true ∨ op = true)) ∧
    (allow = false → op = false →
       tryExecuteCommand allow op cmd w = (botChat refusalMsg w, false)) ∧
    ((allow = true ∨ op = true) →
       tryExecuteCommand allow op cmd w
         = (botChat (if cmd.head? = some '/' then cmd else '/' :: cmd) w, true)) := by
  have hne : cmd.isEmpty = false := by
    cases cmd with
    | nil => exact absurd rfl h
    | cons c t => rfl
  cases allow <;> cases op <;>
    simp [tryExecuteCommand, hne]

/-- Claim C6 witness: the three flag combinations of the spec's command
gate example. -/
theorem c6_witness :
    (tryExecuteCommand false false (("time set day").toList) w0).2 = false ∧
    (tryExecuteCommand true false (("time set day").toList) w0).2 = true ∧
    (tryExecuteCommand false true (("time set day").toList) w0).2 = true := by
  refine ⟨?_, ?_, ?_⟩
  · rw [(c6_confirmed false false (("time set day").toList) w0 (by decide)).2.1 rfl rfl]
  · rw [(c6_confirmed true false (("time set day").toList) w0 (by decide)).2.2 (Or.inl rfl)]
  · rw [(c6_confirmed false true (("time set day").toList) w0 (by decide)).2.2 (Or.inr rfl)]

/-- Claim C7 (confirmed): whenever the fenced-JSON strategy succeeds — the
fence markers are present and the fenced region parses to a value with the
plan shape — parsePlanFromReply returns exactly that fenced plan, so any
directive line elsewhere in the text contributes nothing. -/
theorem c7_confirmed (text : JStr) (o pl : JsVal)
    (h1 : jsIndexOf text fenceJsonL ≠ -1)
    (h2 : jsIndexOfFrom text fenceL (jsIndexOf text fenceJsonL + 7) ≠ -1)
    (h3 : JSONparse (jsTrim (jsSlice text (jsIndexOf text fenceJsonL + 7)
            (jsIndexOfFrom text fenceL (jsIndexOf text fenceJsonL + 7)))) = Except.ok o)
    (h4 : planOf o = some pl) :
    parsePlanFromReply text = some pl := by
  have htext : text.isEmpty = false := by
    cases text with
    | nil => exact absurd rfl h1
    | cons c t => rfl
  simp only [parsePlanFromReply, htext, Bool.false_eq_true, if_false]
  rw [if_pos ⟨h1, h2⟩, h3]
  dsimp only
  rw [h4]

/-- Claim C7 witness: on the spec's example text — a fenced plan plus a
directive line — extraction returns exactly the one fenced inspect step
with params x=1, y=2, z=3. -/
theorem c7_witness : parsePlanFromReply exText = some exPlan :=
  c7_confirmed exText exObj exPlan (by decide) (by decide) rfl rfl

/-- every successful parsePlanFromReply result is schema-valid (its steps
field is an array). -/
theorem parsePlanFromReply_shape (text : JStr) (pl : JsVal)
    (h : parsePlanFromReply text = some pl) :
    ∃ xs, getField pl (("steps").toList) = some (.arr xs) := by
  simp only [parsePlanFromReply] at h
  split at h
  · exact Option.noConfusion h
  · split at h
    · rename_i pl0 heq
      obtain rfl := Option.some.inj h
      repeat
        first
        | exact strategyOf_shape _ _ heq
        | exact Option.noConfusion heq
        | split at heq
    · repeat
        first
        | exact strategyOf_shape _ _ h
        | exact Option.noConfusion h
        | split at h

/-- Claim C8 (confirmed): the extraction functions are total functions in
this embedding (every JSON.parse exception is consumed by a catch, so no
exception escapes), a successful plan extraction always has the plan
schema, and on empty, garbage, deeply-nested-brace and truncated-JSON
inputs each function returns null or the empty list. -/
theorem c8_confirmed :
    (∀ (text : JStr) (pl : JsVal), parsePlanFromReply text = some pl →
       ∃ xs, getField pl (("steps").toList) = some (.arr xs)) ∧
    parsePlanFromReply [] = none ∧
    parsePlanFromReply garbage1 = none ∧
    parsePlanFromReply deepBraces = none ∧
    parsePlanFromReply truncJson = none ∧
    parseJsonActionsFromReply [] = none ∧
    parseJsonActionsFromReply garbage1 = none ∧
    parseJsonActionsFromReply truncJson2 = none ∧
    parseCommandLineFromReply [] = [] ∧
    parseCommandLineFromReply garbage1 = [] ∧
    extractActionsLoose [] user1 = [] ∧
    extractActionsLoose garbage1 user1 = [] ∧
    extractActionsLoose deepBraces user1 = [] :=
  ⟨parsePlanFromReply_shape, rfl, rfl, rfl, rfl, rfl, rfl, rfl, rfl, rfl, rfl, rfl, rfl⟩

/-- Claim C8 witness: the schema-validity conjunct applied to a concrete
successful extraction. -/
theorem c8_witness :
    ∃ xs, getField exPlan (("steps").toList) = some (.arr xs) :=
  c8_confirmed.1 exText exPlan rfl

/-- Claim C9 (confirmed): the sanitizer is a total (never-raising) pure
function; its output never exceeds 240 characters, the empty input maps to
the empty output, and whenever the cleaned text exceeds 240 characters the
output is its first 237 characters followed by the ellipsis marker. -/
theorem c9_confirmed (reply : JStr) :
    (sanitizeLLMReplyForChat reply).length ≤ 240 ∧
    sanitizeLLMReplyForChat [] = [] ∧
    (reply ≠ [] → hasLead (sanitizeCleaned reply) preambleL = false →
       240 < (sanitizeCleaned reply).length →
       sanitizeLLMReplyForChat reply = (sanitizeCleaned reply).take 237 ++ ellipsisL) := by
  refine ⟨?_, rfl, ?_⟩
  · simp only [sanitizeLLMReplyForChat]
    split
    · simp
    · split
      · simp
      · split
        · next hlen =>
          simp only [List.length_append, List.length_take, ellipsisL, List.length_cons,
            List.length_nil]
          omega
        · next hlen =>
          omega
  · intro hne hpre hlen
    have hne' : reply.isEmpty = false := by
      cases reply with
      | nil => exact absurd rfl hne
      | cons c t => rfl
    simp only [sanitizeLLMReplyForChat]
    rw [hne']
    simp only [Bool.false_eq_true, if_false]
    rw [hpre]
    simp only [Bool.false_eq_true, if_false]
    rw [if_pos hlen]

/-- Claim C9 witness: a 250-character plain input is truncated to its first
237 characters plus the ellipsis, within the 240 bound. -/
theorem c9_witness :
    sanitizeLLMReplyForChat aRun = (sanitizeCleaned aRun).take 237 ++ ellipsisL ∧
    (sanitizeLLMReplyForChat aRun).length ≤ 240 :=
  ⟨(c9_confirmed aRun).2.2 (by decide) (by decide) (by decide), (c9_confirmed aRun).1⟩

/-- Claim C10 (confirmed): for every environment the two config flags
evaluate to the constant true (the initializer ends in || true), so the
refusal branch of tryExecuteCommand is unreachable — every nonempty
command is forwarded to chat, slash-prefixed when needed, with result
true. -/
theorem c10_confirmed (envA envD : Option JStr) (op : Bool) (cmd : JStr) (w : World)
    (h : cmd ≠ []) :
    ALLOW_COMMANDS envA = true ∧ ALLOW_DESTRUCTIVE envD = true ∧
    tryExecuteCommand (ALLOW_COMMANDS envA) op cmd w
      = (botChat (if cmd.head? = some '/' then cmd else '/' :: cmd) w, true) := by
  have hA : ALLOW_COMMANDS envA = true := by simp [ALLOW_COMMANDS]
  have hD : ALLOW_DESTRUCTIVE envD = true := by simp [ALLOW_DESTRUCTIVE]
  have hne : cmd.isEmpty = false := by
    cases cmd with
    | nil => exact absurd rfl h
    | cons c t => rfl
  refine ⟨hA, hD, ?_⟩
  rw [hA]
  simp [tryExecuteCommand, hne]

/-- Claim C10 witness: with no environment variables set, both flags are
true and a concrete slash-less command is forwarded with the slash added. -/
theorem c10_witness :
    ALLOW_COMMANDS none = true ∧ ALLOW_DESTRUCTIVE none = true ∧
    tryExecuteCommand (ALLOW_COMMANDS none) false (("time set day").toList) w0
      = (botChat (("/time set day").toList) w0, true) := by
  have h := c10_confirmed none none false (("time set day").toList) w0 (by decide)
  refine ⟨h.1, h.2.1, ?_⟩
  rw [h.2.2]
  rfl

end MF
